import Mathlib

/-!
Verification development for the RAC Mobile activity-logging app
(`src/src/App.tsx`, schema v5, and the earlier v4 variant in
`src/unnamed/part_000`).  The app keeps a flat list of records in browser
local storage, validates form submissions, exports/imports CSV and JSON
backups, and aggregates estimated minutes for a summary panel.

The embedding below translates the relevant TypeScript functions into
executable Lean definitions:

* JSON values are modelled by the inductive `Json`; numbers are `Int`
  (no numeric field of the app uses fractions).
* `localStorage.getItem` followed by `JSON.parse` is modelled by a
  `Storage` map from key to `ParseResult`: the key can be absent, hold
  an unparseable string (`malformed`), or hold a parsed JSON value.
  Objects produced by `JSON.parse` have unique keys, so association
  lists with first-match lookup model them faithfully.
* `JSON.stringify` on plain data followed by `JSON.parse` is the
  identity on `Json` values (undefined-valued fields are omitted by
  stringify, which the entry encoder mirrors), so the backup file is
  modelled by the `Json` value it denotes.
-/

/-- JSON values, as produced by `JSON.parse`. -/
inductive Json where
  | null
  | bool (b : Bool)
  | num (n : Int)
  | str (s : String)
  | arr (xs : List Json)
  | obj (kvs : List (String × Json))

/-- Outcome of `localStorage.getItem(key)` composed with `JSON.parse`:
the key may be absent, hold a string that fails to parse, or hold a
string parsing to a JSON value. -/
inductive ParseResult where
  | absent
  | malformed
  | value (j : Json)

/-- The browser local storage, keyed by string. -/
def Storage := String → ParseResult

/-- The `Entry` record type from `App.tsx` (schema v5).  The
`dificuldade` union of string literals is modelled as a string; the
three optional fields are `Option String`. -/
structure Entry where
  id : String
  unidade : String
  atividade : String
  manifestacao : String
  comQuem : List String
  duracao : String
  dificuldade : String
  urgente : Bool
  data : String
  hora : String
  observacoes : Option String
  observacoesAudio : Option String
  transcricao : Option String
deriving DecidableEq, Repr

/-- `const STORAGE_KEY = "racEntries_v5"` from `App.tsx`. -/
def STORAGE_KEY : String := "racEntries_v5"

/-- `const OPTIONS_KEY = "racOptions_v5"` from `App.tsx`. -/
def OPTIONS_KEY : String := "racOptions_v5"

/-- `loadEntries` from `App.tsx`: read `STORAGE_KEY`; an absent key or a
parse failure yields `[]`; a parsed array yields its elements
(`Array.isArray(arr) ? arr : []`); any other parsed value yields `[]`.
The elements are kept as raw JSON values, exactly as the unchecked
`JSON.parse(raw) as Entry[]` cast does. -/
def loadEntries (st : Storage) : List Json :=
  match st STORAGE_KEY with
  | ParseResult.absent => []
  | ParseResult.malformed => []
  | ParseResult.value (Json.arr xs) => xs
  | ParseResult.value _ => []

/-- A storage state whose only populated key is the prior schema key
`racEntries_v4`, holding one legacy record with a single legacy
recipient field of value `"X"`. -/
def stLegacyEntries : Storage := fun k =>
  if k = "racEntries_v4" then
    ParseResult.value (Json.arr [Json.obj
      [("id", Json.str "1"), ("paraQuem", Json.str "X"),
       ("data", Json.str "2024-01-01"), ("hora", Json.str "08:00")]])
  else ParseResult.absent

/-- Lookup of a field on a JSON value: `d.k` in JavaScript.  Only
objects have fields; `JSON.parse` output has unique keys, so first-match
lookup is faithful. -/
def getField (j : Json) (k : String) : Option Json :=
  match j with
  | Json.obj kvs => kvs.lookup k
  | _ => none

/-- C3, counterexample: with the current key `racEntries_v5` absent and
the prior key `racEntries_v4` holding a legacy record whose recipient
field is `"X"`, `loadEntries` returns `[]` — no record with
`comQuem == ["X"]` is produced, contradicting the claimed migration. -/
theorem c3_no_migration_counterexample :
    loadEntries stLegacyEntries = [] ∧
    ¬ ∃ j ∈ loadEntries stLegacyEntries,
        getField j "comQuem" = some (Json.arr [Json.str "X"]) := by
  refine ⟨rfl, ?_⟩
  rintro ⟨j, hj, -⟩
  simp [loadEntries, stLegacyEntries, STORAGE_KEY] at hj

/-- C3, amended: `loadEntries` depends only on the current schema key
`racEntries_v5` (so no prior-version fallback or migration happens); an
absent or malformed key yields `[]`, a parsed JSON array yields its
elements verbatim, and any parsed non-array value yields `[]`. -/
theorem c3_load_current_only : ∀ (st st' : Storage),
    st STORAGE_KEY = st' STORAGE_KEY →
    loadEntries st = loadEntries st'
  ∧ (st STORAGE_KEY = ParseResult.absent → loadEntries st = [])
  ∧ (st STORAGE_KEY = ParseResult.malformed → loadEntries st = [])
  ∧ (∀ xs, st STORAGE_KEY = ParseResult.value (Json.arr xs) →
      loadEntries st = xs)
  ∧ (∀ j, st STORAGE_KEY = ParseResult.value j →
      (∀ xs, j ≠ Json.arr xs) → loadEntries st = []) := by
  intro st st' h
  refine ⟨?_, ?_, ?_, ?_, ?_⟩
  · simp only [loadEntries, h]
  · intro h2; simp [loadEntries, h2]
  · intro h2; simp [loadEntries, h2]
  · intro xs h2; simp [loadEntries, h2]
  · intro j h2 hna
    cases j with
    | arr xs => exact absurd rfl (hna xs)
    | null => simp [loadEntries, h2]
    | bool b => simp [loadEntries, h2]
    | num n => simp [loadEntries, h2]
    | str s => simp [loadEntries, h2]
    | obj kvs => simp [loadEntries, h2]

/-- C3, witness for the amended theorem at a concrete storage state. -/
theorem c3_load_current_only_witness :
    loadEntries (fun _ => ParseResult.absent) = [] :=
  (c3_load_current_only (fun _ => ParseResult.absent)
    (fun _ => ParseResult.absent) rfl).2.1 rfl

/-- `DEFAULT_OPTIONS` from `App.tsx` (schema v5), as the JSON object it
denotes: five pick-lists keyed by name. -/
def DEFAULT_OPTIONS_J : List (String × Json) :=
  [("DURATIONS", Json.arr
     [Json.str "Até 5 min", Json.str "5 a 15 min", Json.str "15 a 30 min",
      Json.str "30 a 45 min", Json.str "45 a 60 min", Json.str "60 a 90 min",
      Json.str "Mais de 90 min", Json.str "Mais de 120 min",
      Json.str "Mais de 180 min", Json.str "Outro (especificar)"]),
   ("UNIDADES", Json.arr [Json.str "CJ", Json.str "NLC"]),
   ("ATIVIDADES", Json.arr
     [Json.str "Whatsapp", Json.str "Email", Json.str "Telefone",
      Json.str "Reunião interna do órgão", Json.str "Reunião externa",
      Json.str "Estudos temáticos",
      Json.str "Participação em Comitê ou Comissão", Json.str "CIACON",
      Json.str "CEAI", Json.str "CGGDIESP", Json.str "CONEXÕES - GERAL",
      Json.str "CONEXÕES - COORD"]),
   ("MANIFESTACOES", Json.arr
     [Json.str "Parecer", Json.str "Cota", Json.str "Nota-Técnica",
      Json.str "Despacho", Json.str "Minuta de Informações em MS",
      Json.str "Minutas para a Adm"]),
   ("COM_QUEM", Json.arr
     [Json.str "Colegas CJ", Json.str "Expediente CJ",
      Json.str "Sub Consultoria", Json.str "SubConsultoria_grupo_NLC",
      Json.str "Julio", Json.str "UGP_SP_Mais_Digital", Json.str "Fenili",
      Json.str "Andrea", Json.str "Equipes_Fenili&Andrea",
      Json.str "Gabinete SGGD", Json.str "Outros",
      Json.str "ColegasOutrasUnidades", Json.str "Joao - Sub Gov Digital",
      Json.str "Equipe do Joao - Sub Gov Digital",
      Json.str "Eva - Sub Gestão de Pessoas",
      Json.str "Equipe da Eva - Sub Gestão de Pessoas", Json.str "AJG",
      Json.str "Elaine - Ouvidora PGE", Json.str "Paulo - Sub Patrimônio",
      Json.str "Equipe do Paulo - Sub Patrimônio"])]

/-- The fields a JavaScript object spread `{...x}` takes from a value:
objects give their key-value pairs, arrays and strings give their
index-keyed elements, and primitives give nothing. -/
def jsSpreadFields : Json → List (String × Json)
  | Json.obj kvs => kvs
  | Json.arr xs => xs.enum.map (fun ix => (toString ix.1, ix.2))
  | Json.str s => s.data.enum.map
      (fun ic => (toString ic.1, Json.str (String.singleton ic.2)))
  | _ => []

/-- The object spread `{...a, ...b}`: keys of `a` first (values
overridden by `b` where present), then keys of `b` not in `a`, in
order. -/
def jsMergeObj (a b : List (String × Json)) : List (String × Json) :=
  a.map (fun kv => match b.lookup kv.1 with
    | some v => (kv.1, v)
    | none => kv)
  ++ b.filter (fun kv => (a.lookup kv.1).isNone)

/-- `loadOptions` from `App.tsx`: read `OPTIONS_KEY`; an absent key or a
parse failure yields a copy of the defaults; otherwise the result is
`{...DEFAULT_OPTIONS, ...JSON.parse(raw)}`. -/
def loadOptions (st : Storage) : List (String × Json) :=
  match st OPTIONS_KEY with
  | ParseResult.absent => DEFAULT_OPTIONS_J
  | ParseResult.malformed => DEFAULT_OPTIONS_J
  | ParseResult.value j => jsMergeObj DEFAULT_OPTIONS_J (jsSpreadFields j)

/-- A storage state whose only populated key is the legacy options key
`racOptions_v4`, holding `{UNIDADES: ["CJ"]}`. -/
def stLegacyOptions : Storage := fun k =>
  if k = "racOptions_v4" then
    ParseResult.value (Json.obj [("UNIDADES", Json.arr [Json.str "CJ"])])
  else ParseResult.absent

/-- A storage state whose only populated key is the current options key,
holding `{UNIDADES: ["CJ","NLC","X"]}`. -/
def stCurrentOptions : Storage := fun k =>
  if k = OPTIONS_KEY then
    ParseResult.value (Json.obj
      [("UNIDADES", Json.arr [Json.str "CJ", Json.str "NLC", Json.str "X"])])
  else ParseResult.absent

/-- C7, counterexample: with the current options key absent and the
legacy key holding `{UNIDADES: ["CJ"]}`, `loadOptions` returns the
built-in defaults — `UNIDADES == ["CJ","NLC"]`, not the legacy `["CJ"]`
the claimed legacy-key merge would give.  The legacy key is never
read. -/
theorem c7_legacy_ignored_counterexample :
    (loadOptions stLegacyOptions).lookup "UNIDADES"
      = some (Json.arr [Json.str "CJ", Json.str "NLC"]) ∧
    some (Json.arr [Json.str "CJ", Json.str "NLC"])
      ≠ some (Json.arr [Json.str "CJ"]) := by
  refine ⟨rfl, ?_⟩
  simp

/-- C7, amended: `loadOptions` merges, in increasing precedence, the
built-in defaults and the options persisted under the current key only,
key-by-key at the top level (JS spread, whole-list replacement); no
legacy key is consulted — the result depends only on the current key;
an absent or malformed current key yields the defaults; with current
`{UNIDADES: ["CJ","NLC","X"]}` the loaded `UNIDADES` is
`["CJ","NLC","X"]`. -/
theorem c7_options_merge_amended : ∀ (st st' : Storage),
    st OPTIONS_KEY = st' OPTIONS_KEY →
    loadOptions st = loadOptions st'
  ∧ (st OPTIONS_KEY = ParseResult.absent →
      loadOptions st = DEFAULT_OPTIONS_J)
  ∧ (st OPTIONS_KEY = ParseResult.malformed →
      loadOptions st = DEFAULT_OPTIONS_J)
  ∧ (∀ kvs, st OPTIONS_KEY = ParseResult.value (Json.obj kvs) →
      loadOptions st = jsMergeObj DEFAULT_OPTIONS_J kvs)
  ∧ (loadOptions stCurrentOptions).lookup "UNIDADES"
      = some (Json.arr [Json.str "CJ", Json.str "NLC", Json.str "X"]) := by
  intro st st' h
  refine ⟨?_, ?_, ?_, ?_, ?_⟩
  · simp only [loadOptions, h]
  · intro h2; simp [loadOptions, h2]
  · intro h2; simp [loadOptions, h2]
  · intro kvs h2; simp [loadOptions, h2, jsSpreadFields]
  · rfl

/-- C7, witness for the amended theorem at concrete storage states. -/
theorem c7_options_merge_amended_witness :
    loadOptions (fun _ => ParseResult.absent) = DEFAULT_OPTIONS_J ∧
    loadOptions (fun _ =>
        ParseResult.value (Json.obj
          [("UNIDADES", Json.arr [Json.str "CJ"])]))
      = jsMergeObj DEFAULT_OPTIONS_J [("UNIDADES", Json.arr [Json.str "CJ"])] :=
  ⟨(c7_options_merge_amended (fun _ => ParseResult.absent)
      (fun _ => ParseResult.absent) rfl).2.1 rfl,
   (c7_options_merge_amended
      (fun _ => ParseResult.value (Json.obj
        [("UNIDADES", Json.arr [Json.str "CJ"])]))
      (fun _ => ParseResult.value (Json.obj
        [("UNIDADES", Json.arr [Json.str "CJ"])])) rfl).2.2.2.1 _ rfl⟩

/-- `s.replace(/"/g, '""')` from `toCSV`: the global single-character
regex replace, i.e. every double-quote character is doubled. -/
def escapeQuotes (s : String) : String :=
  String.mk (s.data.flatMap (fun c => if c = '"' then ['"', '"'] else [c]))

/-- `/[",\n]/.test(s)` from `toCSV`: does `s` contain a double quote, a
comma or a newline? -/
def csvNeedsQuote (s : String) : Bool :=
  s.data.any (fun c => c = '"' || c = ',' || c = '\n')

/-- The quoting step of `toCSV` in `App.tsx`: a value containing a
double quote, a comma or a newline is wrapped in double quotes with
internal double quotes doubled; any other value passes through
unchanged. -/
def csvField (s : String) : String :=
  if csvNeedsQuote s then "\"" ++ escapeQuotes s ++ "\"" else s

/-- The `headers` array of `toCSV` in `App.tsx`. -/
def csvHeaders : List String :=
  ["id", "unidade", "atividade", "manifestacao", "comQuem", "duracao",
   "dificuldade", "urgente", "data", "hora", "observacoes", "transcricao"]

/-- The per-record row object of `toCSV`: the entry spread into `rec`
with `comQuem` joined by `"; "` and `urgente` rendered `"Sim"`/`"Não"`,
then looked up per header with `rec[h] ?? ""`. -/
def recField (e : Entry) (h : String) : String :=
  if h = "id" then e.id
  else if h = "unidade" then e.unidade
  else if h = "atividade" then e.atividade
  else if h = "manifestacao" then e.manifestacao
  else if h = "comQuem" then String.intercalate "; " e.comQuem
  else if h = "duracao" then e.duracao
  else if h = "dificuldade" then e.dificuldade
  else if h = "urgente" then (if e.urgente then "Sim" else "Não")
  else if h = "data" then e.data
  else if h = "hora" then e.hora
  else if h = "observacoes" then e.observacoes.getD ""
  else if h = "transcricao" then e.transcricao.getD ""
  else ""

/-- One CSV data row of `toCSV`: each header's value quoted as needed
and joined with commas. -/
def csvRow (e : Entry) : String :=
  String.intercalate "," (csvHeaders.map (fun h => csvField (recField e h)))

/-- `toCSV` from `App.tsx`: the header line followed by one row per
record, joined with newlines. -/
def toCSV (entries : List Entry) : String :=
  String.intercalate "\n"
    (String.intercalate "," csvHeaders :: entries.map csvRow)

/-- The row shape C4 describes, written directly from the claim: the
fixed column order, each field escaped by the quoting rule, `comQuem`
serialized as one field joining entries with `"; "`, and the `urgente`
boolean emitted unquoted as `"Sim"`/`"Não"`. -/
def csvRowSpec (e : Entry) : String :=
  String.intercalate ","
    [csvField e.id, csvField e.unidade, csvField e.atividade,
     csvField e.manifestacao,
     csvField (String.intercalate "; " e.comQuem), csvField e.duracao,
     csvField e.dificuldade, (if e.urgente then "Sim" else "Não"),
     csvField e.data, csvField e.hora, csvField (e.observacoes.getD ""),
     csvField (e.transcricao.getD "")]

/-- The source row equals the row the claim describes: the `urgente`
cell needs no quoting, and every other cell goes through the quoting
rule in the claimed column order. -/
theorem csvRow_eq_spec (e : Entry) : csvRow e = csvRowSpec e := by
  have hSim : csvField "Sim" = "Sim" := by decide
  have hNao : csvField "Não" = "Não" := by decide
  cases hu : e.urgente <;>
    simp [csvRow, csvRowSpec, csvHeaders, recField, hu, hSim, hNao]

/-- C4: CSV export is the fixed header line followed by one row per
record in the claimed fixed column order, each field escaped by the
comma/quote/newline rule with internal double quotes doubled, `comQuem`
joined with `"; "`, `urgente` as unquoted `"Sim"`/`"Não"`; and the value
`a,"b"` produces the cell `"a,""b"""`. -/
theorem c4_to_csv : ∀ (entries : List Entry),
    toCSV entries = String.intercalate "\n"
      ("id,unidade,atividade,manifestacao,comQuem,duracao,dificuldade,urgente,data,hora,observacoes,transcricao"
        :: entries.map csvRowSpec)
  ∧ csvField "a,\"b\"" = "\"a,\"\"b\"\"\"" := by
  intro entries
  constructor
  · have hrows : entries.map csvRow = entries.map csvRowSpec := by
      have h : csvRow = csvRowSpec := funext csvRow_eq_spec
      rw [h]
    rw [toCSV, hrows]
    rfl
  · rfl

/-- C4, witness: the theorem applied to a concrete one-record list. -/
theorem c4_to_csv_witness :
    toCSV [] = "id,unidade,atividade,manifestacao,comQuem,duracao,dificuldade,urgente,data,hora,observacoes,transcricao"
  ∧ csvField "a,\"b\"" = "\"a,\"\"b\"\"\"" :=
  ⟨by rw [(c4_to_csv []).1]; rfl, (c4_to_csv []).2⟩

/-- `durationMinutes` from `App.tsx`: the fixed lookup from a duration
bucket label to its estimated minutes; unknown labels give 0. -/
def durationMinutes (label : String) : Nat :=
  if label = "Até 5 min" then 5
  else if label = "5 a 15 min" then 10
  else if label = "15 a 30 min" then 22
  else if label = "30 a 45 min" then 37
  else if label = "45 a 60 min" then 52
  else if label = "60 a 90 min" then 75
  else if label = "Mais de 90 min" then 105
  else if label = "Mais de 120 min" then 135
  else if label = "Mais de 180 min" then 195
  else if label = "Outro (especificar)" then 0
  else 0

/-- The `totalMin` reduction of the `Summary` component:
`entries.reduce((acc, e) => acc + durationMinutes(e.duracao), 0)`. -/
def summaryTotalMin (entries : List Entry) : Nat :=
  entries.foldl (fun acc e => acc + durationMinutes e.duracao) 0

/-- The display step `(totalMin / 60).toFixed(1)` of `Summary`, modelled
on the exact rational value of the JavaScript double: `toFixed(1)`
chooses the integer `n` with `n / 10` closest to the value, preferring
the larger `n` on a tie, which for nonnegative values is
`floor(10 q + 1/2)`; the digits are then printed around a dot. -/
def jsToFixed1 (q : ℚ) : String :=
  toString (⌊q * 10 + 1 / 2⌋ / 10) ++ "." ++ toString (⌊q * 10 + 1 / 2⌋ % 10)

/-- The IEEE-754 binary64 value of `27 / 60 = 0.45`: doubles in
`[1/4, 1/2)` are `m / 2^54` for an integer `m`, and this `m` is the one
whose distance to `9/20` is under half an ulp (proved in `c9`). -/
def jsDouble45 : ℚ := 8106479329266893 / 2 ^ 54

/-- A record with duration label `"Até 5 min"`. -/
def exRec1 : Entry :=
  { id := "r1", unidade := "CJ", atividade := "Email", manifestacao := "",
    comQuem := ["Julio"], duracao := "Até 5 min", dificuldade := "Baixa",
    urgente := false, data := "2024-01-01", hora := "08:00",
    observacoes := some "", observacoesAudio := none,
    transcricao := some "" }

/-- A record with duration label `"15 a 30 min"`. -/
def exRec2 : Entry :=
  { exRec1 with id := "r2", duracao := "15 a 30 min" }

/-- Folding the per-entry minute lookup equals summing it over the
mapped list. -/
theorem summaryTotalMin_eq_sum (entries : List Entry) (a : Nat) :
    entries.foldl (fun acc e => acc + durationMinutes e.duracao) a
      = a + (entries.map (fun e => durationMinutes e.duracao)).sum := by
  induction entries generalizing a with
  | nil => simp
  | cons e rest ih => simp [List.foldl_cons, ih, Nat.add_assoc]

/-- C9: the summary total is the sum over records of the fixed
label-to-minutes lookup; for the two labels `"Até 5 min"` and
`"15 a 30 min"` it is 5 + 22 = 27 minutes; and the displayed hours
string is `"0.5"`: the binary64 value of `27 / 60` is within half an
ulp of `9/20` (hence is the value the division produces), and
`toFixed(1)` prints it as `"0.5"`. -/
theorem c9_summary_minutes :
    (∀ entries : List Entry, summaryTotalMin entries
      = (entries.map (fun e => durationMinutes e.duracao)).sum)
  ∧ summaryTotalMin [exRec1, exRec2] = 27
  ∧ |jsDouble45 - 27 / 60| < 1 / 2 ^ 55
  ∧ jsToFixed1 jsDouble45 = "0.5" := by
  refine ⟨?_, ?_, ?_, ?_⟩
  · intro entries
    simpa using summaryTotalMin_eq_sum entries 0
  · rfl
  · rw [abs_lt]
    constructor <;> norm_num [jsDouble45]
  · have h : ⌊jsDouble45 * 10 + 1 / 2⌋ = (5 : ℤ) := by
      rw [Int.floor_eq_iff]
      constructor <;> norm_num [jsDouble45]
    rw [jsToFixed1, h]
    decide

/-- C9, witness: the total-minutes characterization applied to the
concrete two-record list. -/
theorem c9_summary_minutes_witness :
    summaryTotalMin [exRec1, exRec2]
      = ([exRec1, exRec2].map (fun e => durationMinutes e.duracao)).sum :=
  c9_summary_minutes.1 [exRec1, exRec2]

/-- The form state a submission draws on: the `EntryForm` component
state at the moment `submit()` runs, plus `editingId` (the id when
editing an existing record). -/
structure Draft where
  unidade : String
  atividade : String
  manifestacao : String
  comQuem : List String
  duracao : String
  dificuldade : String
  urgente : Bool
  data : String
  hora : String
  obs : String
  audioData : Option String
  transcricao : String
  editingId : Option String

/-- The record `submit()` builds when validation passes;
`crypto.randomUUID()` is modelled by the `freshId` parameter. -/
def draftEntry (freshId : String) (d : Draft) : Entry :=
  { id := d.editingId.getD freshId, unidade := d.unidade,
    atividade := d.atividade, manifestacao := d.manifestacao,
    comQuem := d.comQuem, duracao := d.duracao,
    dificuldade := d.dificuldade, urgente := d.urgente, data := d.data,
    hora := d.hora, observacoes := some d.obs,
    observacoesAudio := d.audioData, transcricao := some d.transcricao }

/-- `submit()` from `App.tsx` (schema v5): reject with an alert when
both `atividade` and `manifestacao` are empty, or when `atividade` is
non-empty and `comQuem` is empty; otherwise build the entry and pass it
to `onSubmit`.  Rejection is the `Except.error` carrying the alert
message, so `onSubmit` receives nothing. -/
def submitV5 (freshId : String) (d : Draft) : Except String Entry :=
  if d.atividade = "" ∧ d.manifestacao = "" then
    Except.error "Preencha Atividade e/ou Manifestação."
  else if d.atividade ≠ "" ∧ d.comQuem = [] then
    Except.error "Preencha \"Com quem\" (até 3) quando houver Atividade."
  else
    Except.ok (draftEntry freshId d)

/-- `submit()` from the v4 variant (`part_000`): same first rule, but
the field whose presence requires companions is `manifestacao`. -/
def submitV4 (freshId : String) (d : Draft) : Except String Entry :=
  if d.atividade = "" ∧ d.manifestacao = "" then
    Except.error "Preencha Atividade OU Manifestação."
  else if d.manifestacao ≠ "" ∧ d.comQuem = [] then
    Except.error "Preencha \"Com quem\" (até 3) quando houver Manifestação."
  else
    Except.ok (draftEntry freshId d)

/-- Did a submission pass the gate (was `onSubmit` called)? -/
def submitOk (r : Except String Entry) : Bool :=
  match r with
  | Except.ok _ => true
  | Except.error _ => false

/-- C1: a submission is accepted exactly when at least one of the two
classification fields is non-empty and, whenever the policy-designated
"requires companions" field is non-empty (`atividade` in the v5 policy,
`manifestacao` in the v4 policy), the companions list is non-empty;
otherwise the result is an error message and no record reaches
`onSubmit`. -/
theorem c1_submit_gate : ∀ (freshId : String) (d : Draft),
    (submitOk (submitV5 freshId d) = true ↔
      ((d.atividade ≠ "" ∨ d.manifestacao ≠ "") ∧
       (d.atividade ≠ "" → d.comQuem ≠ [])))
  ∧ (submitOk (submitV4 freshId d) = true ↔
      ((d.atividade ≠ "" ∨ d.manifestacao ≠ "") ∧
       (d.manifestacao ≠ "" → d.comQuem ≠ []))) := by
  intro freshId d
  constructor
  · rw [submitV5]
    split_ifs with h1 h2 <;> simp [submitOk] <;> tauto
  · rw [submitV4]
    split_ifs with h1 h2 <;> simp [submitOk] <;> tauto

/-- A draft that passes both policies: `atividade` set with one
companion. -/
def draftOK : Draft :=
  { unidade := "CJ", atividade := "Email", manifestacao := "Parecer",
    comQuem := ["Julio"], duracao := "Até 5 min", dificuldade := "",
    urgente := false, data := "2024-01-01", hora := "08:00", obs := "",
    audioData := none, transcricao := "", editingId := none }

/-- C1, witness: the gate characterization applied to a concrete
accepted draft under both policies. -/
theorem c1_submit_gate_witness :
    submitOk (submitV5 "u1" draftOK) = true ∧
    submitOk (submitV4 "u1" draftOK) = true :=
  ⟨(c1_submit_gate "u1" draftOK).1.mpr (by decide),
   (c1_submit_gate "u1" draftOK).2.mpr (by decide)⟩

/-- JavaScript truthiness of a possibly-absent field value (`d.id` used
as a condition): absent fields, `null`, `false`, `0` and `""` are
falsy; everything else is truthy. -/
def truthy : Option Json → Bool
  | none => false
  | some Json.null => false
  | some (Json.bool b) => b
  | some (Json.num n) => n != 0
  | some (Json.str s) => s != ""
  | some (Json.arr _) => true
  | some (Json.obj _) => true

/-- The validation of `importJSON` in `App.tsx` applied to the parsed
payload: throw `"Estrutura inválida"` unless it is an array, throw
`"Formato inválido"` unless every element has truthy `id`, `data` and
`hora`; otherwise the element list is accepted as-is (the elements stay
unchecked JSON values, as the unchecked cast does). -/
def importJSONResult (j : Json) : Except String (List Json) :=
  match j with
  | Json.arr ds =>
      if ds.all (fun d => truthy (getField d "id") &&
          truthy (getField d "data") && truthy (getField d "hora")) then
        Except.ok ds
      else Except.error "Formato inválido"
  | _ => Except.error "Estrutura inválida"

/-- The effect of `importJSON` on the record list: `setEntries(data)` on
acceptance wholly replaces the list; on a thrown error only the alert
fires and the list is untouched. -/
def applyImport (j : Json) (prev : List Json) : List Json :=
  match importJSONResult j with
  | Except.ok ds => ds
  | Except.error _ => prev

/-- `JSON.stringify` of one entry object as built by `submit()`: keys
in declaration order; fields holding `undefined` (`none`) are
omitted. -/
def encodeEntry (e : Entry) : Json :=
  Json.obj
    ([("id", Json.str e.id), ("unidade", Json.str e.unidade),
      ("atividade", Json.str e.atividade),
      ("manifestacao", Json.str e.manifestacao),
      ("comQuem", Json.arr (e.comQuem.map Json.str)),
      ("duracao", Json.str e.duracao),
      ("dificuldade", Json.str e.dificuldade),
      ("urgente", Json.bool e.urgente), ("data", Json.str e.data),
      ("hora", Json.str e.hora)]
    ++ (match e.observacoes with
        | some s => [("observacoes", Json.str s)]
        | none => [])
    ++ (match e.observacoesAudio with
        | some s => [("observacoesAudio", Json.str s)]
        | none => [])
    ++ (match e.transcricao with
        | some s => [("transcricao", Json.str s)]
        | none => []))

/-- `exportJSON` from `App.tsx`: the backup file denotes the JSON array
of the serialized entries (`JSON.stringify(entries, null, 2)`). -/
def exportJSONValue (entries : List Entry) : Json :=
  Json.arr (entries.map encodeEntry)

/-- Decode a JSON array of strings back to the string list. -/
def decodeStrings : List Json → Option (List String)
  | [] => some []
  | Json.str s :: rest => (decodeStrings rest).map (fun l => s :: l)
  | _ => none

/-- Decode a mandatory string field. -/
def decodeStrField (j : Json) (k : String) : Option String :=
  match getField j k with
  | some (Json.str s) => some s
  | _ => none

/-- Decode an optional string field: absence is `none`, a string is
`some`, anything else fails. -/
def decodeOptStrField (j : Json) (k : String) : Option (Option String) :=
  match getField j k with
  | none => some none
  | some (Json.str s) => some (some s)
  | some _ => none

/-- Read an `Entry` back from its JSON object, field for field. -/
def decodeEntry (j : Json) : Option Entry := do
  let id ← decodeStrField j "id"
  let unidade ← decodeStrField j "unidade"
  let atividade ← decodeStrField j "atividade"
  let manifestacao ← decodeStrField j "manifestacao"
  let comQuem ← match getField j "comQuem" with
    | some (Json.arr xs) => decodeStrings xs
    | _ => none
  let duracao ← decodeStrField j "duracao"
  let dificuldade ← decodeStrField j "dificuldade"
  let urgente ← match getField j "urgente" with
    | some (Json.bool b) => some b
    | _ => none
  let data ← decodeStrField j "data"
  let hora ← decodeStrField j "hora"
  let observacoes ← decodeOptStrField j "observacoes"
  let observacoesAudio ← decodeOptStrField j "observacoesAudio"
  let transcricao ← decodeOptStrField j "transcricao"
  some { id := id, unidade := unidade, atividade := atividade,
         manifestacao := manifestacao, comQuem := comQuem,
         duracao := duracao, dificuldade := dificuldade,
         urgente := urgente, data := data, hora := hora,
         observacoes := observacoes,
         observacoesAudio := observacoesAudio,
         transcricao := transcricao }

/-- Decoding a mapped string list recovers the list. -/
theorem decodeStrings_map (l : List String) :
    decodeStrings (l.map Json.str) = some l := by
  induction l with
  | nil => rfl
  | cons s rest ih => simp [decodeStrings, ih]

/-- Decoding the serialized entry recovers the entry, field for
field. -/
theorem decodeEntry_encodeEntry (e : Entry) :
    decodeEntry (encodeEntry e) = some e := by
  obtain ⟨i, u, a, m, c, du, di, ur, da, ho, obs, aud, tr⟩ := e
  cases obs <;> cases aud <;> cases tr <;>
    simp [decodeEntry, encodeEntry, decodeStrField, decodeOptStrField,
      getField, List.lookup, decodeStrings_map]

/-- C5: for a record list in which every record has non-empty `id`,
`data` and `hora`, importing the exported JSON backup accepts the
payload and yields exactly the serialized records, and each of them
reads back, field for field, as the original record — import after
export is the identity on such lists. -/
theorem c5_backup_round_trip : ∀ (entries : List Entry),
    (∀ e ∈ entries, e.id ≠ "" ∧ e.data ≠ "" ∧ e.hora ≠ "") →
    importJSONResult (exportJSONValue entries)
      = Except.ok (entries.map encodeEntry)
  ∧ (entries.map encodeEntry).map decodeEntry = entries.map some := by
  intro entries h
  constructor
  · rw [exportJSONValue, importJSONResult]
    rw [if_pos]
    rw [List.all_eq_true]
    rintro x hx
    obtain ⟨e, he, rfl⟩ := List.mem_map.mp hx
    obtain ⟨h1, h2, h3⟩ := h e he
    simp [encodeEntry, getField, List.lookup, truthy, h1, h2, h3]
  · rw [List.map_map]
    exact List.map_congr_left (fun e _ => decodeEntry_encodeEntry e)
/-- C5, witness: the round trip at a concrete one-record list. -/
theorem c5_backup_round_trip_witness :
    importJSONResult (exportJSONValue [exRec1])
      = Except.ok ([exRec1].map encodeEntry)
  ∧ ([exRec1].map encodeEntry).map decodeEntry = [exRec1].map some :=
  c5_backup_round_trip [exRec1] (by decide)

/-- C6: import accepts exactly the payloads that are arrays whose every
element has truthy `id`, `data` and `hora` fields; on rejection a
message is surfaced and the record list is left unchanged; on
acceptance the payload's elements wholly replace the record list. -/
theorem c6_import_gate : ∀ (j : Json) (prev : List Json),
    ((∃ ds, importJSONResult j = Except.ok ds) ↔
      (∃ ds, j = Json.arr ds ∧ ∀ d ∈ ds,
        truthy (getField d "id") = true ∧
        truthy (getField d "data") = true ∧
        truthy (getField d "hora") = true))
  ∧ (∀ m, importJSONResult j = Except.error m → applyImport j prev = prev)
  ∧ (∀ ds, importJSONResult j = Except.ok ds →
      applyImport j prev = ds ∧ j = Json.arr ds) := by
  intro j prev
  refine ⟨?_, ?_, ?_⟩
  · constructor
    · rintro ⟨ds, hds⟩
      cases j with
      | arr xs =>
          refine ⟨xs, rfl, ?_⟩
          rw [importJSONResult] at hds
          split_ifs at hds with hall
          rw [List.all_eq_true] at hall
          intro d hd
          have := hall d hd
          simpa [Bool.and_eq_true, and_assoc] using this
      | null => exact absurd hds (by simp [importJSONResult])
      | bool b => exact absurd hds (by simp [importJSONResult])
      | num n => exact absurd hds (by simp [importJSONResult])
      | str s => exact absurd hds (by simp [importJSONResult])
      | obj kvs => exact absurd hds (by simp [importJSONResult])
    · rintro ⟨ds, rfl, hall⟩
      refine ⟨ds, ?_⟩
      rw [importJSONResult, if_pos]
      rw [List.all_eq_true]
      intro d hd
      obtain ⟨h1, h2, h3⟩ := hall d hd
      simp [h1, h2, h3]
  · intro m hm
    rw [applyImport, hm]
  · intro ds hds
    constructor
    · rw [applyImport, hds]
    · cases j with
      | arr xs =>
          rw [importJSONResult] at hds
          split_ifs at hds
          cases hds
          rfl
      | null => exact absurd hds (by simp [importJSONResult])
      | bool b => exact absurd hds (by simp [importJSONResult])
      | num n => exact absurd hds (by simp [importJSONResult])
      | str s => exact absurd hds (by simp [importJSONResult])
      | obj kvs => exact absurd hds (by simp [importJSONResult])

/-- C6, witness: a rejected non-array payload leaves a concrete list
unchanged, and an accepted payload replaces it. -/
theorem c6_import_gate_witness :
    applyImport Json.null [Json.null] = [Json.null] ∧
    applyImport (Json.arr []) [Json.null] = [] :=
  ⟨(c6_import_gate Json.null [Json.null]).2.1 "Estrutura inválida" rfl,
   ((c6_import_gate (Json.arr []) [Json.null]).2.2 [] rfl).1⟩

/-- `handleComQuemChange` from `App.tsx`: take the selected options; if
more than 3 are selected, `pop()` removes the last one; the result
becomes the new companions list. -/
def handleComQuemChange (selected : List String) : List String :=
  if selected.length > 3 then selected.dropLast else selected

/-- A backup payload whose single record carries four companions but
has the `id`, `data` and `hora` fields the import gate checks. -/
def badPayload : Json :=
  Json.arr [Json.obj
    [("id", Json.str "1"), ("data", Json.str "2024-01-01"),
     ("hora", Json.str "08:00"),
     ("comQuem", Json.arr
       [Json.str "a", Json.str "b", Json.str "c", Json.str "d"])]]

/-- C2: the companions-length invariant is not enforced.  The JSON
gate of the backup path checks only `id`, `data` and `hora`, so `badPayload` — whose
record has 4 companions — is accepted and stored as-is; and a 5-element
selection passed to `handleComQuemChange` is only shortened to 4, still
above the documented bound of 3. -/
theorem c2_companions_bound_violated :
    (∃ ds, importJSONResult badPayload = Except.ok ds ∧
      ∃ j ∈ ds, ∃ xs, getField j "comQuem" = some (Json.arr xs) ∧
        xs.length = 4)
  ∧ (handleComQuemChange ["a", "b", "c", "d", "e"]).length = 4 := by
  constructor
  · refine ⟨_, rfl, ?_⟩
    refine ⟨_, List.mem_singleton.mpr rfl, ?_⟩
    exact ⟨_, rfl, rfl⟩
  · rfl

/-- `value.trim()`: strip leading and trailing whitespace. -/
def jsTrim (s : String) : String :=
  String.mk
    (((s.data.dropWhile Char.isWhitespace).reverse.dropWhile
        Char.isWhitespace).reverse)

/-- `Array.from(new Set(xs))`: drop every later duplicate, keeping the
first occurrence of each element in order.  `seen` accumulates the
elements already emitted. -/
def jsDedupAux (seen : List String) : List String → List String
  | [] => []
  | x :: xs =>
      if x ∈ seen then jsDedupAux seen xs
      else x :: jsDedupAux (x :: seen) xs

/-- `Array.from(new Set(xs))` with nothing seen yet. -/
def jsDedup (l : List String) : List String := jsDedupAux [] l

/-- The list-level core of `addTo` in `App.tsx`: a value whose trimmed
form is empty is ignored; otherwise the stored list becomes
`Array.from(new Set([...prev, value.trim()]))`. -/
def addToList (prev : List String) (value : String) : List String :=
  if jsTrim value = "" then prev else jsDedup (prev ++ [jsTrim value])

/-- `addTo(listKey, value)` from `App.tsx` on the options map: the
named list is replaced by `addToList` of its previous content
(`prev[listKey] || []`); other lists are untouched; an
all-whitespace value changes nothing. -/
def addTo (opts : String → List String) (listKey value : String) :
    String → List String :=
  if jsTrim value = "" then opts
  else fun k =>
    if k = listKey then jsDedup (opts listKey ++ [jsTrim value])
    else opts k

/-- The behaviour C8 claims, written directly from the claim: trim;
ignore if empty; no-op if the trimmed value is already present;
otherwise append it at the end. -/
def claimedAddTo (prev : List String) (value : String) : List String :=
  if jsTrim value = "" then prev
  else if jsTrim value ∈ prev then prev
  else prev ++ [jsTrim value]

/-- Membership in the dedup: exactly the elements of the input not
already seen. -/
theorem mem_jsDedupAux (x : String) (l : List String) :
    ∀ (seen : List String),
      x ∈ jsDedupAux seen l ↔ (x ∈ l ∧ x ∉ seen) := by
  induction l with
  | nil => intro seen; simp [jsDedupAux]
  | cons y ys ih =>
      intro seen
      rw [jsDedupAux]
      split_ifs with hy
      · rw [ih seen]
        constructor
        · rintro ⟨h1, h2⟩
          exact ⟨List.mem_cons_of_mem y h1, h2⟩
        · rintro ⟨h1, h2⟩
          rcases List.mem_cons.mp h1 with rfl | h1'
          · exact absurd hy h2
          · exact ⟨h1', h2⟩
      · rw [List.mem_cons, ih (y :: seen)]
        constructor
        · rintro (rfl | ⟨h1, h2⟩)
          · exact ⟨List.mem_cons_self _ _, hy⟩
          · refine ⟨List.mem_cons_of_mem y h1, fun hx => ?_⟩
            exact h2 (List.mem_cons_of_mem y hx)
        · rintro ⟨h1, h2⟩
          by_cases hxy : x = y
          · exact Or.inl hxy
          · rcases List.mem_cons.mp h1 with rfl | h1'
            · exact Or.inl rfl
            · right
              exact ⟨h1', fun hx => (List.mem_cons.mp hx).elim hxy h2⟩

/-- The dedup output has no duplicates. -/
theorem jsDedupAux_nodup (l : List String) :
    ∀ (seen : List String), (jsDedupAux seen l).Nodup := by
  induction l with
  | nil => intro seen; simp [jsDedupAux]
  | cons y ys ih =>
      intro seen
      rw [jsDedupAux]
      split_ifs with hy
      · exact ih seen
      · rw [List.nodup_cons]
        refine ⟨fun hmem => ?_, ih (y :: seen)⟩
        exact ((mem_jsDedupAux y ys (y :: seen)).mp hmem).2
          (List.mem_cons_self y seen)

/-- Deduping a duplicate-free list with one element appended: a no-op
when the element is already present or seen, an append otherwise. -/
theorem jsDedupAux_append_singleton (v : String) (prev : List String) :
    ∀ (seen : List String), prev.Nodup → (∀ x ∈ prev, x ∉ seen) →
      jsDedupAux seen (prev ++ [v])
        = if v ∈ prev ∨ v ∈ seen then prev else prev ++ [v] := by
  induction prev with
  | nil =>
      intro seen _ _
      rw [List.nil_append, jsDedupAux]
      split_ifs with h1 h2 h3 <;> simp_all [jsDedupAux]
  | cons y ys ih =>
      intro seen hnd hdisj
      have hy : y ∉ seen := hdisj y (List.mem_cons_self y ys)
      have hys : ys.Nodup := (List.nodup_cons.mp hnd).2
      have hyys : y ∉ ys := (List.nodup_cons.mp hnd).1
      have hdisj' : ∀ x ∈ ys, x ∉ y :: seen := by
        intro x hx
        rw [List.mem_cons]
        rintro (rfl | hxs)
        · exact hyys hx
        · exact hdisj x (List.mem_cons_of_mem y hx) hxs
      rw [List.cons_append, jsDedupAux, if_neg hy, ih (y :: seen) hys hdisj']
      by_cases hv : v ∈ ys ∨ v ∈ y :: seen
      · rw [if_pos hv, if_pos]
        rcases hv with h | h
        · exact Or.inl (List.mem_cons_of_mem y h)
        · rcases List.mem_cons.mp h with rfl | h'
          · exact Or.inl (List.mem_cons_self v ys)
          · exact Or.inr h'
      · rw [if_neg hv, if_neg]
        rintro (h | h)
        · rcases List.mem_cons.mp h with rfl | h'
          · exact hv (Or.inr (List.mem_cons_self v seen))
          · exact hv (Or.inl h')
        · exact hv (Or.inr (List.mem_cons_of_mem y h))

/-- The top-level dedup of a duplicate-free list with one appended
element. -/
theorem jsDedup_append_singleton (prev : List String) (v : String)
    (h : prev.Nodup) :
    jsDedup (prev ++ [v]) = if v ∈ prev then prev else prev ++ [v] := by
  rw [jsDedup, jsDedupAux_append_singleton v prev [] h (by simp)]
  simp

/-- Deduping with one element appended, on an arbitrary list: the
element survives at the end exactly when it occurs nowhere in the list
nor among the seen elements. -/
theorem jsDedupAux_append_gen (t : String) (l : List String) :
    ∀ (seen : List String),
      jsDedupAux seen (l ++ [t])
        = if t ∈ l ∨ t ∈ seen then jsDedupAux seen l
          else jsDedupAux seen l ++ [t] := by
  induction l with
  | nil =>
      intro seen
      rw [List.nil_append, jsDedupAux]
      split_ifs <;> simp_all [jsDedupAux]
  | cons x xs ih =>
      intro seen
      by_cases hx : x ∈ seen
      · have hiff : (t ∈ x :: xs ∨ t ∈ seen) ↔ (t ∈ xs ∨ t ∈ seen) := by
          rw [List.mem_cons]
          constructor
          · rintro ((rfl | h) | h)
            · exact Or.inr hx
            · exact Or.inl h
            · exact Or.inr h
          · tauto
        rw [List.cons_append, jsDedupAux, if_pos hx, ih seen, jsDedupAux,
          if_pos hx]
        by_cases ht : t ∈ xs ∨ t ∈ seen
        · rw [if_pos ht, if_pos (hiff.mpr ht)]
        · rw [if_neg ht, if_neg (fun hc => ht (hiff.mp hc))]
      · have hiff : (t ∈ x :: xs ∨ t ∈ seen) ↔ (t ∈ xs ∨ t ∈ x :: seen) := by
          rw [List.mem_cons, List.mem_cons]
          tauto
        rw [List.cons_append, jsDedupAux, if_neg hx, ih (x :: seen),
          jsDedupAux, if_neg hx]
        by_cases ht : t ∈ xs ∨ t ∈ x :: seen
        · rw [if_pos ht, if_pos (hiff.mpr ht)]
        · rw [if_neg ht, if_neg (fun hc => ht (hiff.mp hc)),
            List.cons_append]

/-- Deduping a duplicate-free list disjoint from the seen elements is
the identity. -/
theorem jsDedupAux_eq_self (prev : List String) :
    ∀ (seen : List String), prev.Nodup → (∀ x ∈ prev, x ∉ seen) →
      jsDedupAux seen prev = prev := by
  induction prev with
  | nil => intro seen _ _; rfl
  | cons y ys ih =>
      intro seen hnd hdisj
      have hy : y ∉ seen := hdisj y (List.mem_cons_self y ys)
      have hys : ys.Nodup := (List.nodup_cons.mp hnd).2
      have hyys : y ∉ ys := (List.nodup_cons.mp hnd).1
      have hdisj' : ∀ x ∈ ys, x ∉ y :: seen := by
        intro x hx
        rw [List.mem_cons]
        rintro (rfl | hxs)
        · exact hyys hx
        · exact hdisj x (List.mem_cons_of_mem y hx) hxs
      rw [jsDedupAux, if_neg hy, ih (y :: seen) hys hdisj']

/-- The dedup C8's amendment describes, written from its words: keep
each element's first occurrence, in order, removing all its later
duplicates. -/
def firstOccurrences : List String → List String
  | [] => []
  | x :: xs =>
      x :: firstOccurrences (xs.filter (fun y => !(decide (y = x))))
termination_by l => l.length
decreasing_by
  simp only [List.length_cons]
  exact Nat.lt_succ_of_le (List.length_filter_le _ _)

/-- The `Set`-based dedup keeps exactly the first occurrences: with the
already-seen elements filtered away, it agrees with
`firstOccurrences`. -/
theorem jsDedupAux_eq_firstOccurrences (l : List String) :
    ∀ (seen : List String),
      jsDedupAux seen l
        = firstOccurrences (l.filter (fun y => !(decide (y ∈ seen)))) := by
  induction l with
  | nil => intro seen; simp [jsDedupAux, firstOccurrences]
  | cons x xs ih =>
      intro seen
      rw [jsDedupAux]
      by_cases hx : x ∈ seen
      · rw [if_pos hx, ih seen]
        have hfil : (x :: xs).filter (fun y => !(decide (y ∈ seen)))
            = xs.filter (fun y => !(decide (y ∈ seen))) := by
          rw [List.filter_cons]
          simp [hx]
        rw [hfil]
      · rw [if_neg hx, ih (x :: seen)]
        have hfil : (x :: xs).filter (fun y => !(decide (y ∈ seen)))
            = x :: xs.filter (fun y => !(decide (y ∈ seen))) := by
          rw [List.filter_cons]
          simp [hx]
        rw [hfil, firstOccurrences]
        congr 1
        rw [List.filter_filter]
        apply congrArg firstOccurrences
        apply List.filter_congr
        intro y _
        by_cases h1 : y = x <;> by_cases h2 : y ∈ seen <;>
          simp [h1, h2, List.mem_cons]

/-- `Array.from(new Set(l))` keeps each element's first occurrence in
order, dropping the later duplicates. -/
theorem jsDedup_eq_firstOccurrences :
    ∀ (l : List String), jsDedup l = firstOccurrences l := by
  intro l
  rw [jsDedup, jsDedupAux_eq_firstOccurrences l []]
  congr 1
  simp

/-- C8, counterexample: on the stored list `["A", "A"]` (reachable via
options import), adding the already-present value `"A"` does not leave
the list unchanged — the `Set` round-trip also dedups the existing
entries, giving `["A"]` where the claim requires `["A", "A"]`. -/
theorem c8_duplicate_counterexample :
    addToList ["A", "A"] "A" = ["A"] ∧
    claimedAddTo ["A", "A"] "A" = ["A", "A"] ∧
    addToList ["A", "A"] "A" ≠ claimedAddTo ["A", "A"] "A" :=
  ⟨by decide, by decide, by decide⟩

/-- C8, amended: on stored lists without duplicate entries (the shape
every built-in default has and `addTo` itself produces), `addTo` trims
the value, ignores it when the trimmed form is empty, is a no-op when
it is already present, and otherwise appends it at the end preserving
the existing order; the operation is idempotent; and only the named
list is affected.  An all-whitespace value is ignored on any list.  On
a list holding duplicates, a value with non-empty trimmed form
additionally drops the later duplicates of the existing entries,
keeping first occurrences in order: the stored result is the claimed
behaviour applied to the first-occurrence dedup of the list, and the
`Set`-based dedup provably equals `firstOccurrences`. -/
theorem c8_add_value_amended :
    (∀ (prev : List String) (v : String), prev.Nodup →
      addToList prev v = claimedAddTo prev v)
  ∧ (∀ (prev : List String) (v : String),
      addToList (addToList prev v) v = addToList prev v)
  ∧ (∀ (opts : String → List String) (listKey k v : String),
      k ≠ listKey → addTo opts listKey v k = opts k)
  ∧ (∀ (opts : String → List String) (listKey v : String),
      addTo opts listKey v listKey = addToList (opts listKey) v)
  ∧ (∀ (prev : List String) (v : String), jsTrim v = "" →
      addToList prev v = prev)
  ∧ (∀ (prev : List String) (v : String), jsTrim v ≠ "" →
      addToList prev v = claimedAddTo (firstOccurrences prev) v)
  ∧ (∀ (l : List String), jsDedup l = firstOccurrences l) := by
  refine ⟨?_, ?_, ?_, ?_, ?_, ?_, jsDedup_eq_firstOccurrences⟩
  · intro prev v h
    rw [addToList, claimedAddTo]
    split_ifs with h1 h2
    · rfl
    · rw [jsDedup_append_singleton prev _ h, if_pos h2]
    · rw [jsDedup_append_singleton prev _ h, if_neg h2]
  · intro prev v
    by_cases h1 : jsTrim v = ""
    · simp [addToList, h1]
    · have hD : (jsDedup (prev ++ [jsTrim v])).Nodup := jsDedupAux_nodup _ []
      have htD : jsTrim v ∈ jsDedup (prev ++ [jsTrim v]) := by
        rw [jsDedup, mem_jsDedupAux]
        simp
      unfold addToList
      simp only [if_neg h1]
      rw [jsDedup_append_singleton _ _ hD, if_pos htD]
  · intro opts listKey k v hk
    rw [addTo]
    split_ifs with h1
    · rfl
    · simp only [if_neg hk]
  · intro opts listKey v
    rw [addTo, addToList]
    split_ifs with h1
    · rfl
    · simp
  · intro prev v h
    rw [addToList, if_pos h]
  · intro prev v h
    rw [addToList, if_neg h, claimedAddTo, if_neg h,
      ← jsDedup_eq_firstOccurrences prev, jsDedup,
      jsDedupAux_append_gen (jsTrim v) prev []]
    have hmem : jsTrim v ∈ jsDedup prev ↔ jsTrim v ∈ prev := by
      rw [jsDedup, mem_jsDedupAux]
      simp
    by_cases ht : jsTrim v ∈ prev
    · rw [if_pos (Or.inl ht), if_pos (hmem.mpr ht)]
      rfl
    · have h1 : ¬(jsTrim v ∈ prev ∨ jsTrim v ∈ ([] : List String)) := by
        simp [ht]
      rw [if_neg h1, if_neg (fun hc => ht (hmem.mp hc))]
      rfl

/-- C8, witness for the amended theorem: a concrete duplicate-free
list, a concrete frame instance on a different list name, and the
duplicate-case characterization at a concrete duplicate-holding
list. -/
theorem c8_add_value_amended_witness :
    addToList ["CJ", "NLC"] "X" = claimedAddTo ["CJ", "NLC"] "X" ∧
    addTo (fun _ => ["CJ"]) "UNIDADES" "X" "COM_QUEM" = ["CJ"] ∧
    addToList ["A", "A"] " " = ["A", "A"] ∧
    addToList ["A", "A"] "B" = claimedAddTo (firstOccurrences ["A", "A"]) "B" :=
  ⟨c8_add_value_amended.1 ["CJ", "NLC"] "X" (by decide),
   c8_add_value_amended.2.2.1 (fun _ => ["CJ"]) "UNIDADES" "COM_QUEM" "X"
     (by decide),
   c8_add_value_amended.2.2.2.2.1 ["A", "A"] " " (by decide),
   c8_add_value_amended.2.2.2.2.2.1 ["A", "A"] "B" (by decide)⟩

/-- `prev.findIndex(p)` from `upsert` in `App.tsx`, with `-1` modelled
as `none`: the index of the first match, scanning left to right. -/
def findIdxO (p : Entry → Bool) : List Entry → Option Nat
  | [] => none
  | x :: xs => if p x then some 0 else (findIdxO p xs).map (fun i => i + 1)

/-- `upsert` from `App.tsx`: find the first record whose id equals the
submitted record's id; if there is none, prepend the record; otherwise
copy the list and overwrite that position
(`copy[idx] = entry`, i.e. `List.set`). -/
def upsert (entry : Entry) (prev : List Entry) : List Entry :=
  match findIdxO (fun p => p.id == entry.id) prev with
  | none => entry :: prev
  | some idx => prev.set idx entry

/-- When no record matches, the scan returns `none`. -/
theorem findIdxO_eq_none (entry : Entry) (prev : List Entry)
    (h : ∀ p ∈ prev, p.id ≠ entry.id) :
    findIdxO (fun p => p.id == entry.id) prev = none := by
  induction prev with
  | nil => rfl
  | cons y ys ih =>
      rw [findIdxO]
      rw [if_neg]
      · rw [ih (fun p hp => h p (List.mem_cons_of_mem y hp))]
        rfl
      · simp only [beq_iff_eq]
        exact h y (List.mem_cons_self y ys)

/-- With duplicate-free ids, the scan finds exactly the position of the
matching record. -/
theorem findIdxO_append (entry mid : Entry) (l₂ : List Entry) :
    ∀ (l₁ : List Entry),
      (((l₁ ++ mid :: l₂).map (fun p => p.id)).Nodup) →
      mid.id = entry.id →
      findIdxO (fun p => p.id == entry.id) (l₁ ++ mid :: l₂)
        = some l₁.length := by
  intro l₁
  induction l₁ with
  | nil =>
      intro _ hmid
      rw [List.nil_append, findIdxO, if_pos (by simp [hmid])]
      rfl
  | cons y ys ih =>
      intro hnd hmid
      have hnd' : (((ys ++ mid :: l₂).map (fun p => p.id)).Nodup) := by
        rw [List.cons_append, List.map_cons, List.nodup_cons] at hnd
        exact hnd.2
      have hy : y.id ≠ entry.id := by
        rw [List.cons_append, List.map_cons, List.nodup_cons] at hnd
        intro hcontra
        apply hnd.1
        rw [hcontra, ← hmid]
        exact List.mem_map.mpr ⟨mid, by simp, rfl⟩
      rw [List.cons_append, findIdxO, if_neg (by simpa using hy),
        ih hnd' hmid]
      rfl

/-- Overwriting the position right after `l₁` replaces `mid` and leaves
everything else where it was. -/
theorem set_append_len (entry mid : Entry) (l₂ : List Entry) :
    ∀ (l₁ : List Entry),
      (l₁ ++ mid :: l₂).set l₁.length entry = l₁ ++ entry :: l₂ := by
  intro l₁
  induction l₁ with
  | nil => rfl
  | cons y ys ih => simp [List.set, ih]

/-- C10: submitting a record whose id is new prepends it (newest
first); submitting a record whose id matches an existing record — with
record ids duplicate-free — overwrites that record in place, leaving
every record before and after it unchanged at its position. -/
theorem c10_upsert : ∀ (entry : Entry) (prev : List Entry),
    ((∀ p ∈ prev, p.id ≠ entry.id) → upsert entry prev = entry :: prev)
  ∧ (∀ (l₁ l₂ : List Entry) (mid : Entry),
      prev = l₁ ++ mid :: l₂ →
      ((prev.map (fun p => p.id)).Nodup) →
      mid.id = entry.id →
      upsert entry prev = l₁ ++ entry :: l₂) := by
  intro entry prev
  constructor
  · intro h
    rw [upsert, findIdxO_eq_none entry prev h]
  · rintro l₁ l₂ mid rfl hnd hmid
    rw [upsert, findIdxO_append entry mid l₂ l₁ hnd hmid]
    exact set_append_len entry mid l₂ l₁

/-- A record reusing `exRec2`'s id, as an edit-and-resubmit would. -/
def exRec2' : Entry := { exRec1 with id := "r2", duracao := "5 a 15 min" }

/-- A record with an id absent from `[exRec1, exRec2]`. -/
def exRec9 : Entry := { exRec1 with id := "r9" }

/-- C10, witness: on the concrete list `[exRec1, exRec2]`, a fresh id
is prepended and a matching id overwrites in place. -/
theorem c10_upsert_witness :
    upsert exRec9 [exRec1, exRec2] = [exRec9, exRec1, exRec2] ∧
    upsert exRec2' [exRec1, exRec2] = [exRec1, exRec2'] :=
  ⟨(c10_upsert exRec9 [exRec1, exRec2]).1 (by decide),
   (c10_upsert exRec2' [exRec1, exRec2]).2 [exRec1] [] exRec2 rfl
     (by decide) (by decide)⟩
